import Mathlib

/-!
Verification of the sauerkraut repository (a small Python RPC library).

The development shallowly embeds the code of `sauerkraut/__init__.py` and
`sauerkraut/jsonrpc/__init__.py`:

* Python runtime values that the claims need are `PyValue`; Python dicts
  built from string keys are association lists with unique keys (`Dict`).
* `inspect.Signature.bind` plus `BoundArguments.apply_defaults`, restricted
  to POSITIONAL_OR_KEYWORD parameters (the only kind the repository's
  services use at call sites), is embedded as `bindLoop1` / `bindLoop2` /
  `signatureBind` / `apply_defaults`, following the structure of CPython's
  `Signature._bind`.
* `get_service_config`, the decorators `service` / `service_method`,
  the generated JSON-RPC client (`create_jsonrpc_client_factory`), the
  server routing table (`JsonRpcServer.__init__`) and
  `StandardJsonRpcRequestClient.make_request` are embedded below, each next
  to a comment pointing at the source lines it translates.
-/

set_option autoImplicit false

deriving instance DecidableEq for Except

namespace Sauerkraut

/-- A Python runtime value, restricted to the shapes the claims exercise:
`None`, integers and strings. -/
inductive PyValue where
  | none
  | int (n : Int)
  | str (s : String)
  deriving DecidableEq, Repr

/-- A Python `dict` with string keys, as an association list.  Dicts built
by the embedded code always have unique keys (they come from keyword
arguments, attribute tables or parsed JSON objects), so first-match lookup
agrees with Python dict lookup. -/
abbrev Dict := List (String × PyValue)

/-- `d.get(k)` / `k in d` for a Python dict. -/
def dictGet (d : Dict) (k : String) : Option PyValue :=
  match d with
  | [] => Option.none
  | (k2, v) :: rest => if k2 = k then some v else dictGet rest k

/-- `d.pop(k)`: value of `k` together with the dict with `k` removed, or
`none` when the key is absent (Python would raise `KeyError`). -/
def kwPop (d : Dict) (k : String) : Option (PyValue × Dict) :=
  match d with
  | [] => Option.none
  | (k2, v) :: rest =>
    if k2 = k then some (v, rest)
    else (kwPop rest k).map fun p => (p.1, (k2, v) :: p.2)

/-- `d.pop(k)` keeping only the remaining dict (used for `pop('self')`). -/
def dictRemove (d : Dict) (k : String) : Dict :=
  match d with
  | [] => []
  | (k2, v) :: rest => if k2 = k then rest else (k2, v) :: dictRemove rest k

/-- One parameter of a Python signature: its name and, when present, its
declared default value (`inspect.Parameter`, POSITIONAL_OR_KEYWORD). -/
structure Param where
  name : String
  default : Option PyValue
  deriving DecidableEq, Repr

/-- The `TypeError`s CPython's `Signature._bind` raises, which the spec
groups under `BindingError`.  Each constructor keeps the parameter or
keyword name the CPython message reports. -/
inductive BindError where
  | tooManyPositional
  | multipleValues (name : String)
  | missingRequired (name : String)
  | unexpectedKeyword (name : String)
  deriving DecidableEq, Repr

/-- First loop of CPython `Signature._bind` (all parameters
POSITIONAL_OR_KEYWORD): consume positional values against parameters in
lockstep.  Running out of parameters while positional values remain is
`too many positional arguments`; a positionally bound parameter whose name
also occurs in `kw` is `multiple values`; when the positional values run
out, the loop stops at the first remaining parameter that is in `kw` or
has a default (those parameters are handed to the second loop), and a
remaining parameter with neither is `missing a required argument`.
Returns the positional bindings and the parameters left over for the
keyword loop. -/
def bindLoop1 (kw : Dict) : List Param → List PyValue → Except BindError (Dict × List Param)
  | [], [] => .ok ([], [])
  | p :: rest, [] =>
    if (dictGet kw p.name).isSome then .ok ([], p :: rest)
    else if p.default.isSome then .ok ([], p :: rest)
    else .error (.missingRequired p.name)
  | [], _ :: _ => .error .tooManyPositional
  | p :: ps, a :: args =>
    if (dictGet kw p.name).isSome then .error (.multipleValues p.name)
    else
      match bindLoop1 kw ps args with
      | .ok (bound, rest) => .ok ((p.name, a) :: bound, rest)
      | .error e => .error e

/-- Second loop of CPython `Signature._bind`: walk the remaining
parameters in declaration order, binding each from the keyword dict when
present, skipping it when it has a default, and failing with
`missing a required argument` otherwise.  Returns the keyword bindings and
the leftover keyword dict. -/
def bindLoop2 : List Param → Dict → Except BindError (Dict × Dict)
  | [], kw => .ok ([], kw)
  | p :: ps, kw =>
    match kwPop kw p.name with
    | some (v, kw2) =>
      match bindLoop2 ps kw2 with
      | .ok (bound, rest) => .ok ((p.name, v) :: bound, rest)
      | .error e => .error e
    | Option.none =>
      if p.default.isSome then bindLoop2 ps kw
      else .error (.missingRequired p.name)

/-- `inspect.Signature.bind(*args, **kwargs)`: both loops, then any
leftover keyword is `got an unexpected keyword argument`.  The resulting
`BoundArguments.arguments` dict lists bound parameters in declaration
order and omits unbound defaulted parameters, exactly as CPython does
before `apply_defaults`. -/
def signatureBind (params : List Param) (args : List PyValue) (kwargs : Dict) :
    Except BindError Dict :=
  match bindLoop1 kwargs params args with
  | .error e => .error e
  | .ok (bound1, rest) =>
    match bindLoop2 rest kwargs with
    | .error e => .error e
    | .ok (bound2, leftover) =>
      match leftover with
      | [] => .ok (bound1 ++ bound2)
      | (k, _) :: _ => .error (.unexpectedKeyword k)

/-- `BoundArguments.apply_defaults()`: rebuild the arguments dict by
walking the parameters in declaration order, keeping each bound value,
filling each unbound parameter from its default, and skipping unbound
parameters without a default (CPython's `continue` branch, which after a
full `bind` never fires for POSITIONAL_OR_KEYWORD parameters). -/
def apply_defaults : List Param → Dict → Dict
  | [], _ => []
  | p :: ps, bound =>
    match dictGet bound p.name with
    | some v => (p.name, v) :: apply_defaults ps bound
    | Option.none =>
      match p.default with
      | some d => (p.name, d) :: apply_defaults ps bound
      | Option.none => apply_defaults ps bound

/-- `signature.bind(...)` immediately followed by `apply_defaults()`, the
combination both generated artifacts use. -/
def bindApply (params : List Param) (args : List PyValue) (kwargs : Dict) :
    Except BindError Dict :=
  match signatureBind params args kwargs with
  | .ok bound => .ok (apply_defaults params bound)
  | .error e => .error e

/-- Signature of `FooService.bar(self, x, y=3)` from `tests/test_services.py`. -/
def barSignature : List Param :=
  [⟨"self", Option.none⟩, ⟨"x", Option.none⟩, ⟨"y", some (.int 3)⟩]

/-! ## Service declaration surface and descriptor extraction
Embedding of `sauerkraut/__init__.py`. -/

/-- An attribute value stored on a Python object: an ordinary value, or a
configuration dict (the decorators store their keyword arguments as a
dict under a marker attribute). -/
inductive AttrVal where
  | val (v : PyValue)
  | cfg (d : Dict)
  deriving DecidableEq, Repr

/-- A Python object as its attribute table (`__dict__`-style name to value
map, unique keys, insertion ordered). -/
structure PyObj where
  attrs : List (String × AttrVal)
  deriving DecidableEq, Repr

/-- Lookup in an attribute table. -/
def attrGet (attrs : List (String × AttrVal)) (k : String) : Option AttrVal :=
  match attrs with
  | [] => Option.none
  | (k2, v) :: rest => if k2 = k then some v else attrGet rest k

/-- Update an attribute table: replace the existing entry in place or
append a new one, as a Python attribute dict does. -/
def attrSet (attrs : List (String × AttrVal)) (k : String) (v : AttrVal) :
    List (String × AttrVal) :=
  match attrs with
  | [] => [(k, v)]
  | (k2, v2) :: rest =>
    if k2 = k then (k, v) :: rest
    else (k2, v2) :: attrSet rest k v

/-- Attribute lookup (`getattr` / `hasattr`). -/
def getattrOpt (o : PyObj) (k : String) : Option AttrVal :=
  attrGet o.attrs k

/-- `setattr(o, k, v)`. -/
def setattrObj (o : PyObj) (k : String) (v : AttrVal) : PyObj :=
  ⟨attrSet o.attrs k v⟩

/-- `sauerkraut.service` applied to a class with a configuration bag:
`setattr(service_cls, '__service__', kwargs); return service_cls`
(lines 10-14 of `sauerkraut/__init__.py`, the branch where the decorated
object is present). -/
def service (service_cls : PyObj) (kwargs : Dict) : PyObj :=
  setattrObj service_cls "__service__" (.cfg kwargs)

/-- `sauerkraut.service_method` applied to a function with a configuration
bag: `setattr(func, '__service_method__', kwargs); return func`
(lines 17-21 of `sauerkraut/__init__.py`). -/
def service_method (func : PyObj) (kwargs : Dict) : PyObj :=
  setattrObj func "__service_method__" (.cfg kwargs)

/-- `sauerkraut.is_service_method`: `hasattr(func, '__service_method__')`. -/
def is_service_method (func : PyObj) : Bool :=
  (getattrOpt func "__service_method__").isSome

/-- One method of a service declaration as extraction sees it: its
attribute name in the class, its `inspect` signature (declaration-ordered
parameters, `self` included), and the kwargs dict its `@service_method`
decorator stored under `__service_method__`. -/
structure MethodDecl where
  attr_name : String
  params : List Param
  config : Dict
  deriving DecidableEq, Repr

/-- A service class as extraction sees it: the class name, the kwargs
dict stored under `__service__` (empty when `@service` carried no options
or was absent, matching `getattr(service_cls, _SERVICE, {})`), and the
marked methods in class-body declaration order. -/
structure ServiceDecl where
  class_name : String
  config : Dict
  members : List MethodDecl
  deriving DecidableEq, Repr

/-- `ServiceMethodConfig` NamedTuple: the `func` field is represented by
the member declaration itself. -/
structure ServiceMethodConfig where
  name : String
  func : MethodDecl
  config : Dict
  signature : List Param
  deriving DecidableEq, Repr

/-- `ServiceConfig` NamedTuple.  The `name` field is the raw value of the
`name` option (Python would store whatever value was passed), or the class
name as a string when the option is absent. -/
structure ServiceConfig where
  name : PyValue
  config : Dict
  method_configs : List ServiceMethodConfig
  deriving DecidableEq, Repr

/-- Lexicographic comparison of char lists by Unicode code point, the
order Python uses to compare strings.  `charsLe x y` is `x ≤ y`. -/
def charsLe : List Char → List Char → Bool
  | [], _ => true
  | _ :: _, [] => false
  | a :: as, b :: bs =>
    if a.toNat < b.toNat then true
    else if b.toNat < a.toNat then false
    else charsLe as bs

/-- String comparison by code points, as Python `str` comparison. -/
def strLe (a b : String) : Bool := charsLe a.data b.data

/-- Ordering used by `inspect.getmembers`, which sorts the member list by
attribute name (CPython: `results.sort(key=lambda pair: pair[0])`,
comparing strings lexicographically by code point). -/
abbrev memberLE (a b : MethodDecl) : Prop := strLe a.attr_name b.attr_name = true

/-- `inspect.getmembers(service_cls, predicate=is_service_method)`: the
marked members, sorted by attribute name (stable; attribute names are
unique in a class, so stability is irrelevant here). -/
def getmembers (decl : ServiceDecl) : List MethodDecl :=
  List.insertionSort memberLE decl.members

/-- The `ServiceMethodConfig` built for one member inside
`get_service_config`: `name=attr_name`, `config=getattr(func,
'__service_method__')`, `signature=inspect.Signature.from_callable(func)`.
Note the attribute name is used as the exposed name; the kwargs stored by
`@service_method` are kept in `config` but not consulted. -/
def mkServiceMethodConfig (m : MethodDecl) : ServiceMethodConfig :=
  ⟨m.attr_name, m, m.config, m.params⟩

/-- `sauerkraut.get_service_config` (lines 41-56 of
`sauerkraut/__init__.py`): read the `__service__` dict, collect the marked
members via `inspect.getmembers`, and assemble the `ServiceConfig`.  There
is no validation of any kind and no failure path. -/
def get_service_config (decl : ServiceDecl) : ServiceConfig :=
  { name := (dictGet decl.config "name").getD (.str decl.class_name)
    config := decl.config
    method_configs := (getmembers decl).map mkServiceMethodConfig }

/-! ## JSON-RPC client and server
Embedding of `sauerkraut/jsonrpc/__init__.py`. -/

/-- Generic first-match lookup in a string-keyed association list. -/
def assocGet {β : Type} (l : List (String × β)) (k : String) : Option β :=
  match l with
  | [] => Option.none
  | (k2, v) :: rest => if k2 = k then some v else assocGet rest k

/-- What one successful call of a generated client method does, recorded
as data: the name and dict passed to `serializer.serialize`, and the
`(url, method, params)` triple passed to `request_client.make_request`. -/
structure ClientCallTrace where
  serialize_method : String
  serialize_input : Dict
  request_url : String
  request_method : String
  request_params : Dict
  deriving DecidableEq, Repr

/-- The body of `method_func` inside `create_jsonrpc_client_factory`
(lines 78-92 of `sauerkraut/jsonrpc/__init__.py`), parameterized by the
`method_config` its closure reads at call time:
`bound_args = method_config.signature.bind(self, *args, **kwargs)` then
`apply_defaults()`; on a binding failure the `TypeError` propagates and
`make_request` is never reached (the `.error` branch carries no trace);
otherwise `self` is popped from the bound arguments, the rest is
serialized under `method_config.name`, and `make_request` is invoked with
the service url, `method_config.name` and the serialized params. -/
def method_func (serialize : String → Dict → Dict) (service_url : String)
    (method_config : ServiceMethodConfig) (selfv : PyValue)
    (args : List PyValue) (kwargs : Dict) : Except BindError ClientCallTrace :=
  match bindApply method_config.signature (selfv :: args) kwargs with
  | .error e => .error e
  | .ok bound =>
    let method_name := method_config.name
    let unserialized_params := dictRemove bound "self"
    .ok ⟨method_name, unserialized_params, service_url, method_name,
      serialize method_name unserialized_params⟩

/-- The method table of the class built by `create_jsonrpc_client_factory`
(lines 75-96).  The loop stores one entry per `method_config.name`, but
every `method_func` closure reads the loop variable `method_config` of the
enclosing function scope, which after the loop holds the LAST element of
`service_config.method_configs`; so at call time every generated method
behaves as `method_func` applied to that last config.  (Each function
object still gets its own `__name__` via `update_wrapper` and the explicit
assignment, which only affects metadata, not behavior.) -/
def client_method_table (configs : List ServiceMethodConfig) :
    List (String × ServiceMethodConfig) :=
  match configs.getLast? with
  | Option.none => []
  | some last => configs.map fun c => (c.name, last)

/-- `create_jsonrpc_client_factory(service_cls, ...)` up to the method
table of the generated class: extract the service config, then build the
table. -/
def create_client_table (decl : ServiceDecl) : List (String × ServiceMethodConfig) :=
  client_method_table (get_service_config decl).method_configs

/-- Calling the proxy attribute named `m`: look the callable up in the
generated class and run it. -/
def client_call (serialize : String → Dict → Dict) (url : String)
    (table : List (String × ServiceMethodConfig)) (m : String) (selfv : PyValue)
    (args : List PyValue) (kwargs : Dict) : Option (Except BindError ClientCallTrace) :=
  (assocGet table m).map fun cfg => method_func serialize url cfg selfv args kwargs

/-- `StandardJsonRpcSerializer.serialize` (and `deserialize`): identity. -/
def standard_serialize (m : String) (d : Dict) : Dict :=
  let _ := m
  d

/-- One method of a concrete implementation instance: its behavior on
deserialized positional and keyword arguments, `none` when the Python
call would raise. -/
structure ImplMethod where
  run : List PyValue → Dict → Option PyValue

/-- Routing table keys and effective handler names built by
`JsonRpcServer.__init__` (lines 107-120).  The loop stores
`self._dispatcher[method_name] = wrapper` with the key of each iteration,
but each `wrapper` closure reads the loop variables `method_name` and
`wrapped_method` at call time, which after the loop hold the LAST method
name and `getattr(service, last_name)`.  Each table entry is therefore
the pair (registered key, effective method name the handler uses). -/
def jsonrpc_server_table (method_names : List String) : List (String × String) :=
  match method_names.getLast? with
  | Option.none => []
  | some last => method_names.map fun n => (n, last)

/-- What one inbound dispatch does, as data: the method name the handler
passes to `serializer.deserialize` (for both args and kwargs), the
implementation attribute it invokes, and the serialized result. -/
structure DispatchTrace where
  deserialize_method : String
  invoked_method : String
  result : Option PyValue
  deriving DecidableEq, Repr

/-- Behavior of the dispatcher on an inbound call (`wrapper`, lines
113-118): look up the routing table, then run the stored handler, which
deserializes args and kwargs under its effective method name, invokes
`getattr(service, effective_name)` and serializes the result.  `none`
when the method key is absent from the table (the jsonrpc library reports
a method-not-found error) or when the implementation raises. -/
def dispatch (impl : List (String × ImplMethod))
    (deserialize_args : String → List PyValue → List PyValue)
    (deserialize_kwargs : String → Dict → Dict)
    (serialize_result : String → PyValue → PyValue)
    (table : List (String × String)) (m : String)
    (args : List PyValue) (kwargs : Dict) : Option DispatchTrace :=
  (assocGet table m).bind fun eff =>
    (assocGet impl eff).map fun im =>
      ⟨eff, eff,
        (im.run (deserialize_args eff args) (deserialize_kwargs eff kwargs)).map
          (serialize_result eff)⟩

/-- `create_jsonrpc_server` (lines 133-139) computes
`method_names = [c.name for c in service_config.method_configs]`. -/
def server_method_names (decl : ServiceDecl) : List String :=
  (get_service_config decl).method_configs.map fun c => c.name

/-- Identity deserializer for positional args, as
`StandardJsonRpcSerializer.deserialize`. -/
def standard_deserialize_args (m : String) (a : List PyValue) : List PyValue :=
  let _ := m
  a

/-- Identity deserializer for keyword args. -/
def standard_deserialize_kwargs (m : String) (d : Dict) : Dict :=
  let _ := m
  d

/-- Identity serializer for results. -/
def standard_serialize_result (m : String) (v : PyValue) : PyValue :=
  let _ := m
  v

/-! ## `StandardJsonRpcRequestClient.make_request` -/

/-- The errors `make_request` can raise after the POST succeeds at the
transport level or not: `requests.HTTPError` from `raise_for_status`
(transport level), `AssertionError` from a failed `assert` (the message
records the asserted expression), and `KeyError` from indexing a missing
key in the parsed response. -/
inductive RequestError where
  | httpError (status : Nat)
  | assertionError (msg : String)
  | keyError (key : String)
  deriving DecidableEq, Repr

/-- Payload-level (protocol) errors are everything except the
transport-level `HTTPError`. -/
def RequestError.isProtocol : RequestError → Bool
  | .httpError _ => false
  | .assertionError _ => true
  | .keyError _ => true

/-- The HTTP response to the POST: status code and parsed JSON body (a
dict with unique keys, as `json.loads` produces). -/
structure HttpResponse where
  status : Nat
  body : Dict
  deriving DecidableEq, Repr

/-- `StandardJsonRpcRequestClient.make_request` (lines 33-53), with the
network POST abstracted by the `HttpResponse` it returns; the request
payload always uses `request_id = 1`.  After the POST:
`response.raise_for_status()` raises `HTTPError` for status 400-599;
`assert 'result' in json_response`; `assert json_response['jsonrpc'] ==
'2.0'` (a `KeyError` when the key is absent); `assert
json_response['id'] == request_id` (likewise); finally the value of
`'result'` is returned. -/
def make_request (resp : HttpResponse) : Except RequestError PyValue :=
  if 400 ≤ resp.status ∧ resp.status < 600 then .error (.httpError resp.status)
  else
    match dictGet resp.body "result" with
    | Option.none => .error (.assertionError "result in json_response")
    | some result =>
      match dictGet resp.body "jsonrpc" with
      | Option.none => .error (.keyError "jsonrpc")
      | some v =>
        if v = .str "2.0" then
          match dictGet resp.body "id" with
          | Option.none => .error (.keyError "id")
          | some idv =>
            if idv = .int 1 then .ok result
            else .error (.assertionError "json_response id == request_id")
        else .error (.assertionError "json_response jsonrpc == 2.0")

/-- A response body is a valid result payload for the (single) request
the client sends: the `result` field is present, the protocol version
matches and the response id matches the request id `1`. -/
abbrev payload_valid (body : Dict) : Prop :=
  (dictGet body "result").isSome = true ∧
  dictGet body "jsonrpc" = some (.str "2.0") ∧
  dictGet body "id" = some (.int 1)

/-! ## The concrete services of `tests/test_services.py` -/

/-- `FooService.bar` as a marked member: attribute name `bar`, signature
`(self, x, y=3)`, empty decorator options. -/
def barMember : MethodDecl := ⟨"bar", barSignature, []⟩

/-- The `FooService` declaration: one marked method `bar`. -/
def fooServiceDecl : ServiceDecl := ⟨"FooService", [], [barMember]⟩

/-- The `ServiceMethodConfig` extraction builds for `bar`. -/
def barClientCfg : ServiceMethodConfig := mkServiceMethodConfig barMember

/-- The generated JSON-RPC client method table for `FooService`. -/
def fooClientTable : List (String × ServiceMethodConfig) :=
  create_client_table fooServiceDecl

/-- `FooServiceImpl.bar(self, x, y=3) = x*2 + y*3` applied to a bound
arguments dict; `none` when the bound values are not ints (the Python
body would then misbehave at `*`/`+`, which no claim exercises). -/
def barImpl (bound : Dict) : Option PyValue :=
  match dictGet bound "x", dictGet bound "y" with
  | some (.int x), some (.int y) => some (.int (x * 2 + y * 3))
  | _, _ => Option.none

/-- A direct call `FooServiceImpl().bar(*args, **kwargs)`: normal Python
call semantics bind the arguments against the signature exactly as
`Signature.bind` plus defaults, then the body runs on the bound values. -/
def call_bar (args : List PyValue) (kwargs : Dict) : Except BindError (Option PyValue) :=
  match bindApply barSignature (.none :: args) kwargs with
  | .ok bound => .ok (barImpl bound)
  | .error e => .error e

/-- A two-method service used to exhibit the closure late-binding bug:
`alpha(self, x)` and `beta(self)`, declared in this order. -/
def alphaMember : MethodDecl :=
  ⟨"alpha", [⟨"self", Option.none⟩, ⟨"x", Option.none⟩], []⟩

/-- Second marked method of the two-method service. -/
def betaMember : MethodDecl := ⟨"beta", [⟨"self", Option.none⟩], []⟩

/-- The two-method service declaration. -/
def abServiceDecl : ServiceDecl := ⟨"ABService", [], [alphaMember, betaMember]⟩

/-- Generated client method table for the two-method service. -/
def abClientTable : List (String × ServiceMethodConfig) :=
  create_client_table abServiceDecl

/-- An implementation instance for the two-method service: `alpha`
returns `1`, `beta` returns `2`, on any arguments. -/
def abImpl : List (String × ImplMethod) :=
  [("alpha", ⟨fun _ _ => some (.int 1)⟩), ("beta", ⟨fun _ _ => some (.int 2)⟩)]

/-- The server routing table `create_jsonrpc_server` builds for the
two-method service. -/
def abServerTable : List (String × String) :=
  jsonrpc_server_table (server_method_names abServiceDecl)

/-- The two-member service declared in the order `beta`, `alpha`, whose
attribute names are not alphabetically ordered. -/
def baServiceDecl : ServiceDecl := ⟨"BAService", [], [betaMember, alphaMember]⟩

/-- A member whose signature declares a non-default parameter `y` after
the defaulted parameter `x` (in Python, `def m(self, x=1, *, y)` yields
exactly this parameter list). -/
def badParamMember : MethodDecl :=
  ⟨"m", [⟨"self", Option.none⟩, ⟨"x", some (.int 1)⟩, ⟨"y", Option.none⟩], []⟩

/-- A declaration containing the ill-formed member. -/
def badParamDecl : ServiceDecl := ⟨"Bad", [], [badParamMember]⟩

/-- A member whose `@service_method(name='renamed')` options carry a name
override. -/
def renamedMember : MethodDecl := ⟨"a", [⟨"self", Option.none⟩], [("name", .str "renamed")]⟩

/-- A declaration containing the renamed member. -/
def renamedDecl : ServiceDecl := ⟨"Renamed", [], [renamedMember]⟩

/-- The name-to-value bindings produced by supplying `vals` positionally
to the parameters `reqs` (pairwise, in declaration order). -/
def reqBind (reqs : List Param) (vals : List PyValue) : Dict :=
  List.zipWith (fun p v => (p.name, v)) reqs vals

/-- The keyword dict that supplies each defaulted parameter of `opts` its
own declared default value explicitly (parameters without a default are
skipped). -/
def optDefaults : List Param → Dict
  | [] => []
  | p :: ps =>
    match p.default with
    | some d => (p.name, d) :: optDefaults ps
    | Option.none => optDefaults ps

/-!
# Theorems
-/

theorem charsLe_total : ∀ x y : List Char, charsLe x y = true ∨ charsLe y x = true
  | [], _ => Or.inl rfl
  | _ :: _, [] => Or.inr rfl
  | a :: as, b :: bs => by
    simp only [charsLe]
    rcases Nat.lt_trichotomy a.toNat b.toNat with h | h | h
    · simp [h]
    · simpa [h, Nat.lt_irrefl] using charsLe_total as bs
    · simp [h, Nat.lt_asymm h]

theorem charsLe_trans : ∀ x y z : List Char,
    charsLe x y = true → charsLe y z = true → charsLe x z = true
  | [], _, _ => fun _ _ => rfl
  | _ :: _, [], _ => fun h _ => by simp [charsLe] at h
  | _ :: _, _ :: _, [] => fun _ h => by simp [charsLe] at h
  | a :: as, b :: bs, c :: cs => by
    simp only [charsLe]
    rcases Nat.lt_trichotomy a.toNat b.toNat with hab | hab | hab <;>
      rcases Nat.lt_trichotomy b.toNat c.toNat with hbc | hbc | hbc <;>
      simp_all [Nat.lt_irrefl, Nat.lt_asymm] <;>
      first
        | simp [Nat.lt_trans hab hbc]
        | (intro h1 h2; exact charsLe_trans as bs cs h1 h2)

theorem attrGet_attrSet_self (attrs : List (String × AttrVal)) (k : String) (v : AttrVal) :
    attrGet (attrSet attrs k v) k = some v := by
  induction attrs with
  | nil => simp [attrSet, attrGet]
  | cons hd t ih =>
    obtain ⟨k2, v2⟩ := hd
    by_cases hk : k2 = k
    · subst hk; simp [attrSet, attrGet]
    · simp [attrSet, attrGet, hk, ih]

theorem attrGet_attrSet_other (attrs : List (String × AttrVal)) (k k2 : String) (v : AttrVal)
    (h : k2 ≠ k) : attrGet (attrSet attrs k v) k2 = attrGet attrs k2 := by
  induction attrs with
  | nil => simp [attrSet, attrGet, Ne.symm h]
  | cons hd t ih =>
    obtain ⟨k3, v3⟩ := hd
    by_cases hk : k3 = k
    · subst hk
      simp only [attrSet, if_pos rfl, attrGet]
      rw [if_neg (fun hh => h hh.symm), if_neg (fun hh => h hh.symm)]
    · by_cases hk2 : k3 = k2
      · subst hk2
        simp [attrSet, hk, attrGet]
      · simp [attrSet, hk, attrGet, hk2, ih]

/-- C1: the claim says every generated client method binds against its
own signature and sends its own method name.  In the code every
`method_func` closure reads the shared loop variable `method_config`,
which after the loop holds the last method config, so for the two-method
service the callable registered under `alpha` binds against the signature
of `beta` and sends the method name `beta`: calling `proxy.alpha()`
issues a request named `beta`, and calling `proxy.alpha(5)` — legal for
`alpha(self, x)` — fails to bind because `beta(self)` takes no `x`.  The
claim holds only for the last declared method, not for every method. -/
theorem client_factory_late_binding_bug :
    assocGet abClientTable "alpha" = some (mkServiceMethodConfig betaMember)
    ∧ client_call standard_serialize "http://localhost:4000/jsonrpc" abClientTable "alpha"
        .none [] [] =
      some (.ok ⟨"beta", [], "http://localhost:4000/jsonrpc", "beta", []⟩)
    ∧ client_call standard_serialize "http://localhost:4000/jsonrpc" abClientTable "alpha"
        .none [.int 5] [] =
      some (.error .tooManyPositional) := by
  refine ⟨by decide, by decide, by decide⟩

/-- C2: the claim says each routing-table entry `m` deserializes under
`m` and invokes the implementation method `m`.  In the code each
`wrapper` closure reads the shared loop variables `method_name` and
`wrapped_method`, which after the loop hold the last method name and
`getattr(service, last_name)`, so for the two-method service the handler
registered under `alpha` deserializes under the name `beta` and invokes
the implementation's `beta` (returning `2`, the value of `beta`, instead
of `alpha`'s `1`). -/
theorem server_dispatcher_late_binding_bug :
    abServerTable = [("alpha", "beta"), ("beta", "beta")]
    ∧ dispatch abImpl standard_deserialize_args standard_deserialize_kwargs
        standard_serialize_result abServerTable "alpha" [] [] =
      some ⟨"beta", "beta", some (.int 2)⟩ :=
  ⟨by decide, rfl⟩

/-- C3: calling the generated client's `bar` with no arguments fails with
the missing-required-argument binding error naming `x`, and calling it
with three positional arguments fails with the too-many-positional
binding error.  Both results are `.error`: in `method_func`,
`signature.bind` runs before `make_request`, and the `.error` branch
carries no `ClientCallTrace`, i.e. `serializer.serialize` and
`request_client.make_request` are never reached — no network activity
occurs.  (The spec's `BindingError` is the `TypeError` raised by
`inspect.Signature.bind`; CPython's messages are `missing a required
argument: x` and `too many positional arguments`.) -/
theorem bar_binding_errors_client_side :
    client_call standard_serialize "http://localhost:4000/jsonrpc" fooClientTable "bar"
      .none [] [] = some (.error (.missingRequired "x"))
    ∧ client_call standard_serialize "http://localhost:4000/jsonrpc" fooClientTable "bar"
        .none [.int 1, .int 2, .int 3] [] = some (.error .tooManyPositional) := by
  refine ⟨by decide, by decide⟩

/-- C4: for `bar(x, y=3)` implemented as `x*2 + y*3`, the four legal call
shapes of the test suite produce `11`, `32`, `32` and `34`: positional,
mixed positional/keyword, and reordered keyword calls bind to the same
logical parameter set. -/
theorem bar_call_shapes :
    call_bar [.int 1] [] = .ok (some (.int 11))
    ∧ call_bar [.int 1, .int 10] [] = .ok (some (.int 32))
    ∧ call_bar [.int 1] [("y", .int 10)] = .ok (some (.int 32))
    ∧ call_bar [] [("y", .int 10), ("x", .int 2)] = .ok (some (.int 34)) := by
  refine ⟨by decide, by decide, by decide, by decide⟩

/-- C6 counterexample: for the service declaring `beta` before `alpha`,
extraction yields the methods in alphabetical order `alpha, beta`, not in
the declaration order `beta, alpha` — `inspect.getmembers` sorts members
by attribute name. -/
theorem extraction_order_counterexample :
    (get_service_config baServiceDecl).method_configs.map (fun c => c.name) = ["alpha", "beta"]
    ∧ baServiceDecl.members.map (fun m => m.attr_name) = ["beta", "alpha"]
    ∧ ¬ ((get_service_config baServiceDecl).method_configs.map (fun c => c.name) =
          baServiceDecl.members.map fun m => m.attr_name) := by
  decide

/-- C6 (amended): extraction is deterministic (it is a pure function of
the declaration) and yields the method descriptors sorted alphabetically
by attribute name — the order of `inspect.getmembers`, not declaration
order — while the descriptor list is a permutation of the per-member
configs, each of which keeps that member's parameters verbatim in
declaration order. -/
theorem extraction_sorted_perm (decl : ServiceDecl) :
    ((get_service_config decl).method_configs.map fun c => c.name).Pairwise
      (fun a b => strLe a b = true)
    ∧ ((get_service_config decl).method_configs).Perm
        (decl.members.map mkServiceMethodConfig) := by
  haveI : IsTotal MethodDecl memberLE :=
    ⟨fun a b => charsLe_total a.attr_name.data b.attr_name.data⟩
  haveI : IsTrans MethodDecl memberLE :=
    ⟨fun a b c h1 h2 => charsLe_trans a.attr_name.data b.attr_name.data c.attr_name.data h1 h2⟩
  constructor
  · have hs : (getmembers decl).Pairwise memberLE := by
      simpa [List.Sorted] using List.sorted_insertionSort memberLE decl.members
    have hmap : (get_service_config decl).method_configs.map (fun c => c.name) =
        (getmembers decl).map fun m => m.attr_name := by
      simp [get_service_config, mkServiceMethodConfig, List.map_map]
    rw [hmap, List.pairwise_map]
    exact hs
  · simpa [get_service_config] using
      (List.perm_insertionSort memberLE decl.members).map mkServiceMethodConfig

/-- C7 counterexample: extraction does not fail on the declaration whose
method has the non-default parameter `y` after the defaulted `x`; it
returns a `ServiceConfig` containing that method unchanged.
`get_service_config` has no validation and no failure path, and the
repository defines no `DeclarationError` at all. -/
theorem extraction_accepts_invalid_params :
    get_service_config badParamDecl =
      ⟨.str "Bad", [], [mkServiceMethodConfig badParamMember]⟩ := by
  decide

/-- C7 (amended): descriptor extraction never fails: for every
declaration — well-formed or not — it succeeds with exactly one
`ServiceConfig` holding exactly one method descriptor per marked member
and the declaration's own config dict.  (Two marked methods cannot share
an exposed name because members are keyed by unique attribute names and
the extraction uses the attribute name; a non-default parameter after a
default one is accepted without complaint.) -/
theorem extraction_always_succeeds (decl : ServiceDecl) :
    (get_service_config decl).method_configs.length = decl.members.length
    ∧ (get_service_config decl).config = decl.config := by
  constructor
  · simp [get_service_config, getmembers, List.length_insertionSort]
  · rfl

/-- C9 counterexample: the member with attribute name `a` marked
`@service_method(name='renamed')` is extracted with descriptor name `a`:
`get_service_config` builds `ServiceMethodConfig(name=attr_name, ...)`
and never consults the `name` option in the method's config dict. -/
theorem method_name_override_ignored :
    (get_service_config renamedDecl).method_configs.map (fun c => c.name) = ["a"]
    ∧ dictGet renamedMember.config "name" = some (.str "renamed")
    ∧ ¬ ((get_service_config renamedDecl).method_configs.map (fun c => c.name) = ["renamed"]) := by
  decide

/-- C9 (amended): the service-level `name` option does override the
extracted `ServiceConfig.name`, with the class name as fallback; the
method-level `name` option is stored in the method's config dict but the
method descriptor's name is always the attribute name. -/
theorem name_override_behavior (decl : ServiceDecl) :
    (∀ v, dictGet decl.config "name" = some v → (get_service_config decl).name = v)
    ∧ (dictGet decl.config "name" = Option.none →
        (get_service_config decl).name = .str decl.class_name)
    ∧ ∀ cfg ∈ (get_service_config decl).method_configs, cfg.name = cfg.func.attr_name := by
  refine ⟨?_, ?_, ?_⟩
  · intro v hv
    simp [get_service_config, hv]
  · intro hv
    simp [get_service_config, hv]
  · intro cfg hcfg
    simp only [get_service_config, List.mem_map] at hcfg
    obtain ⟨m, _, rfl⟩ := hcfg
    rfl

/-- C9 witness: the amended statement evaluated on concrete declarations:
a service-level override, the class-name fallback, and the `bar`
descriptor keeping its attribute name. -/
theorem name_override_behavior_witness :
    (get_service_config ⟨"S", [("name", .str "Custom")], []⟩).name = .str "Custom"
    ∧ (get_service_config ⟨"S", [], []⟩).name = .str "S"
    ∧ barClientCfg.name = barClientCfg.func.attr_name :=
  ⟨(name_override_behavior ⟨"S", [("name", .str "Custom")], []⟩).1 (.str "Custom") (by decide),
    (name_override_behavior ⟨"S", [], []⟩).2.1 (by decide),
    (name_override_behavior fooServiceDecl).2.2 barClientCfg (by decide)⟩

/-- C10: `service_method` returns the decorated object with the marker
attribute `__service_method__` set to the configuration kwargs and every
other attribute unchanged; `is_service_method` holds exactly for objects
carrying the marker; `service` does the same with `__service__`.  (In
Python the returned object is the very same object, mutated in place by
one `setattr`; here the attribute table characterizes that state.) -/
theorem decorator_marker_attrs (f : PyObj) (kwargs : Dict) :
    getattrOpt (service_method f kwargs) "__service_method__" = some (.cfg kwargs)
    ∧ (∀ k, k ≠ "__service_method__" →
        getattrOpt (service_method f kwargs) k = getattrOpt f k)
    ∧ is_service_method (service_method f kwargs) = true
    ∧ (∀ g : PyObj, is_service_method g = true ↔ (getattrOpt g "__service_method__").isSome = true)
    ∧ getattrOpt (service f kwargs) "__service__" = some (.cfg kwargs)
    ∧ ∀ k, k ≠ "__service__" → getattrOpt (service f kwargs) k = getattrOpt f k := by
  refine ⟨?_, ?_, ?_, ?_, ?_, ?_⟩
  · exact attrGet_attrSet_self f.attrs "__service_method__" (.cfg kwargs)
  · intro k hk
    exact attrGet_attrSet_other f.attrs "__service_method__" k (.cfg kwargs) hk
  · simp [is_service_method, getattrOpt, service_method, setattrObj,
      attrGet_attrSet_self f.attrs "__service_method__" (.cfg kwargs)]
  · intro g
    exact Iff.rfl
  · exact attrGet_attrSet_self f.attrs "__service__" (.cfg kwargs)
  · intro k hk
    exact attrGet_attrSet_other f.attrs "__service__" k (.cfg kwargs) hk

/-- C8: for a response whose transport succeeded (status below 400),
`make_request` returns the value of the `result` field whenever the
payload is valid, and fails with a payload-level error — never the
transport-level `HTTPError` — whenever the payload cannot be interpreted
as a valid result (missing `result` field, protocol version mismatch, or
response id different from the request id `1`).  The payload-level
errors (`AssertionError` from the failed asserts, `KeyError` from
indexing an absent `jsonrpc`/`id` key) are what the spec calls
`ProtocolError`, and `isProtocol` separates them from `httpError`, the
spec's `TransportError`. -/
theorem make_request_protocol_errors (resp : HttpResponse) (hs : resp.status < 400) :
    (∀ v, dictGet resp.body "result" = some v → payload_valid resp.body →
      make_request resp = .ok v)
    ∧ (¬ payload_valid resp.body →
        ∃ e, make_request resp = .error e ∧ e.isProtocol = true)
    ∧ (∀ e, make_request resp = .error e → e.isProtocol = true) := by
  have hge : ¬ (400 ≤ resp.status ∧ resp.status < 600) := by omega
  have hok : ∀ v, dictGet resp.body "result" = some v → payload_valid resp.body →
      make_request resp = .ok v := by
    intro v hv hvalid
    obtain ⟨_, h2, h3⟩ := hvalid
    simp [make_request, hge, hv, h2, h3]
  have herr : ¬ payload_valid resp.body →
      ∃ e, make_request resp = .error e ∧ e.isProtocol = true := by
    intro hnv
    cases hr : dictGet resp.body "result" with
    | none =>
      exact ⟨.assertionError "result in json_response", by simp [make_request, hge, hr], rfl⟩
    | some v0 =>
      cases hj : dictGet resp.body "jsonrpc" with
      | none => exact ⟨.keyError "jsonrpc", by simp [make_request, hge, hr, hj], rfl⟩
      | some w =>
        by_cases hw : w = .str "2.0"
        · cases hi : dictGet resp.body "id" with
          | none => exact ⟨.keyError "id", by simp [make_request, hge, hr, hj, hw, hi], rfl⟩
          | some idv =>
            by_cases hid : idv = .int 1
            · exact absurd ⟨by simp [hr], by rw [hj, hw], by rw [hi, hid]⟩ hnv
            · exact ⟨.assertionError "json_response id == request_id",
                by simp [make_request, hge, hr, hj, hw, hi, hid], rfl⟩
        · exact ⟨.assertionError "json_response jsonrpc == 2.0",
            by simp [make_request, hge, hr, hj, hw], rfl⟩
  refine ⟨hok, herr, ?_⟩
  intro e he
  by_cases hv : payload_valid resp.body
  · obtain ⟨h1, h2, h3⟩ := hv
    obtain ⟨v, hv2⟩ := Option.isSome_iff_exists.mp h1
    rw [hok v hv2 ⟨h1, h2, h3⟩] at he
    exact Except.noConfusion he
  · obtain ⟨e2, he2, hp⟩ := herr hv
    rw [he2] at he
    injection he with h
    exact h ▸ hp

/-- C8 witness: the theorem applied to a concrete valid response (status
200, result 11) and to a concrete invalid one (missing `result`, id 7). -/
theorem make_request_protocol_errors_witness :
    make_request ⟨200, [("jsonrpc", .str "2.0"), ("result", .int 11), ("id", .int 1)]⟩ =
      .ok (.int 11)
    ∧ ∃ e, make_request ⟨200, [("jsonrpc", .str "2.0"), ("id", .int 7)]⟩ = .error e
        ∧ e.isProtocol = true :=
  ⟨(make_request_protocol_errors ⟨200, [("jsonrpc", .str "2.0"), ("result", .int 11),
      ("id", .int 1)]⟩ (by decide)).1 (.int 11) (by decide) (by decide),
    (make_request_protocol_errors ⟨200, [("jsonrpc", .str "2.0"), ("id", .int 7)]⟩
      (by decide)).2.1 (by decide)⟩

/-- C10 witness: the decorator statement evaluated on a concrete object
with a pre-existing attribute `doc`, checking the marker and the
preservation of `doc`. -/
theorem decorator_marker_attrs_witness :
    getattrOpt (service_method ⟨[("doc", .val (.str "d"))]⟩ [("name", .str "n")])
        "__service_method__" = some (.cfg [("name", .str "n")])
    ∧ getattrOpt (service_method ⟨[("doc", .val (.str "d"))]⟩ [("name", .str "n")]) "doc" =
        getattrOpt ⟨[("doc", .val (.str "d"))]⟩ "doc" :=
  ⟨(decorator_marker_attrs ⟨[("doc", .val (.str "d"))]⟩ [("name", .str "n")]).1,
    (decorator_marker_attrs ⟨[("doc", .val (.str "d"))]⟩ [("name", .str "n")]).2.1 "doc"
      (by decide)⟩

theorem dictGet_cons_self (k : String) (v : PyValue) (rest : Dict) :
    dictGet ((k, v) :: rest) k = some v := by
  simp [dictGet]

theorem dictGet_cons_ne (k k2 : String) (v : PyValue) (rest : Dict) (h : k ≠ k2) :
    dictGet ((k, v) :: rest) k2 = dictGet rest k2 := by
  simp [dictGet, h]

theorem bindLoop1_reqs (kw : Dict) :
    ∀ (reqs : List Param) (vals : List PyValue) (opts : List Param),
    vals.length = reqs.length →
    (∀ p ∈ reqs, dictGet kw p.name = Option.none) →
    (opts = [] ∨ ∃ o rest, opts = o :: rest ∧ o.default.isSome = true) →
    bindLoop1 kw (reqs ++ opts) vals = .ok (reqBind reqs vals, opts) := by
  intro reqs
  induction reqs with
  | nil =>
    intro vals opts hlen hkw hopts
    obtain rfl : vals = [] := List.length_eq_zero.mp (by simpa using hlen)
    rcases hopts with rfl | ⟨o, rest, rfl, hdef⟩
    · rfl
    · simp only [List.nil_append, bindLoop1]
      by_cases hk : (dictGet kw o.name).isSome
      · simp [hk, reqBind]
      · simp [hk, hdef, reqBind]
  | cons p ps ih =>
    intro vals opts hlen hkw hopts
    cases vals with
    | nil => simp at hlen
    | cons v vs =>
      have hp : dictGet kw p.name = Option.none := hkw p (by simp)
      have hlen2 : vs.length = ps.length := by simpa using hlen
      have hkw2 : ∀ q ∈ ps, dictGet kw q.name = Option.none :=
        fun q hq => hkw q (List.mem_cons_of_mem p hq)
      simp only [List.cons_append, bindLoop1, hp, Option.isSome_none, Bool.false_eq_true,
        if_false, List.append_eq]
      rw [ih vs opts hlen2 hkw2 hopts]
      rfl

theorem bindLoop2_noKw : ∀ opts : List Param, (∀ p ∈ opts, p.default.isSome = true) →
    bindLoop2 opts [] = .ok ([], []) := by
  intro opts
  induction opts with
  | nil => intro _; rfl
  | cons p ps ih =>
    intro h
    have hd : p.default.isSome = true := h p (by simp)
    simp only [bindLoop2, kwPop, hd, if_true]
    exact ih fun q hq => h q (List.mem_cons_of_mem p hq)

theorem bindLoop2_defaults : ∀ opts : List Param, (∀ p ∈ opts, p.default.isSome = true) →
    bindLoop2 opts (optDefaults opts) = .ok (optDefaults opts, []) := by
  intro opts
  induction opts with
  | nil => intro _; rfl
  | cons p ps ih =>
    intro h
    obtain ⟨d, hd⟩ := Option.isSome_iff_exists.mp (h p (by simp))
    have hopt : optDefaults (p :: ps) = (p.name, d) :: optDefaults ps := by
      simp [optDefaults, hd]
    rw [hopt]
    have hpop : kwPop ((p.name, d) :: optDefaults ps) p.name = some (d, optDefaults ps) := by
      simp [kwPop]
    simp only [bindLoop2, hpop]
    rw [ih fun q hq => h q (List.mem_cons_of_mem p hq)]

theorem dictGet_optDefaults_none : ∀ (opts : List Param) (k : String),
    k ∉ opts.map Param.name → dictGet (optDefaults opts) k = Option.none := by
  intro opts
  induction opts with
  | nil => intro k _; rfl
  | cons p ps ih =>
    intro k hk
    simp only [List.map_cons, List.mem_cons, not_or] at hk
    obtain ⟨hk1, hk2⟩ := hk
    cases hd : p.default with
    | none =>
      have hopt : optDefaults (p :: ps) = optDefaults ps := by simp [optDefaults, hd]
      rw [hopt]
      exact ih k hk2
    | some d =>
      have hopt : optDefaults (p :: ps) = (p.name, d) :: optDefaults ps := by
        simp [optDefaults, hd]
      rw [hopt, dictGet_cons_ne p.name k d (optDefaults ps) (Ne.symm hk1)]
      exact ih k hk2

theorem apply_defaults_congr : ∀ (params : List Param) (b1 b2 : Dict),
    (∀ q ∈ params, dictGet b1 q.name = dictGet b2 q.name) →
    apply_defaults params b1 = apply_defaults params b2 := by
  intro params b1 b2 h
  induction params with
  | nil => rfl
  | cons p ps ih =>
    have hp := h p (by simp)
    have ht := ih fun q hq => h q (List.mem_cons_of_mem p hq)
    simp only [apply_defaults, hp, ht]

theorem apply_defaults_skip_head (params : List Param) (k : String) (v : PyValue)
    (rest : Dict) (h : ∀ q ∈ params, q.name ≠ k) :
    apply_defaults params ((k, v) :: rest) = apply_defaults params rest :=
  apply_defaults_congr params _ rest fun q hq =>
    dictGet_cons_ne k q.name v rest (Ne.symm (h q hq))

theorem apply_defaults_unbound : ∀ (params : List Param) (bound : Dict),
    (∀ q ∈ params, dictGet bound q.name = Option.none) →
    apply_defaults params bound = optDefaults params := by
  intro params
  induction params with
  | nil => intro bound _; rfl
  | cons p ps ih =>
    intro bound h
    have hp := h p (by simp)
    have ht := ih bound fun q hq => h q (List.mem_cons_of_mem p hq)
    simp only [apply_defaults, hp, ht, optDefaults]

theorem apply_defaults_optDefaults : ∀ opts : List Param,
    (opts.map Param.name).Nodup → (∀ p ∈ opts, p.default.isSome = true) →
    apply_defaults opts (optDefaults opts) = optDefaults opts := by
  intro opts
  induction opts with
  | nil => intro _ _; rfl
  | cons p ps ih =>
    intro hnd h
    obtain ⟨d, hd⟩ := Option.isSome_iff_exists.mp (h p (by simp))
    rw [List.map_cons, List.nodup_cons] at hnd
    obtain ⟨hnotin, hnd2⟩ := hnd
    have hopt : optDefaults (p :: ps) = (p.name, d) :: optDefaults ps := by
      simp [optDefaults, hd]
    rw [hopt]
    simp only [apply_defaults, dictGet_cons_self]
    rw [apply_defaults_skip_head ps p.name d (optDefaults ps)
      (fun q hq hh => hnotin (hh ▸ List.mem_map_of_mem Param.name hq))]
    rw [ih hnd2 fun q hq => h q (List.mem_cons_of_mem p hq)]

theorem apply_defaults_reqBind :
    ∀ (reqs : List Param) (vals : List PyValue) (opts : List Param),
    vals.length = reqs.length →
    ((reqs ++ opts).map Param.name).Nodup →
    apply_defaults (reqs ++ opts) (reqBind reqs vals) = reqBind reqs vals ++ optDefaults opts := by
  intro reqs
  induction reqs with
  | nil =>
    intro vals opts hlen _
    obtain rfl : vals = [] := List.length_eq_zero.mp (by simpa using hlen)
    exact apply_defaults_unbound opts [] fun q _ => rfl
  | cons p ps ih =>
    intro vals opts hlen hnd
    cases vals with
    | nil => simp at hlen
    | cons v vs =>
      have hlen2 : vs.length = ps.length := by simpa using hlen
      rw [List.cons_append, List.map_cons, List.nodup_cons] at hnd
      obtain ⟨hnotin, hnd2⟩ := hnd
      have hb : reqBind (p :: ps) (v :: vs) = (p.name, v) :: reqBind ps vs := rfl
      rw [List.cons_append, hb]
      simp only [apply_defaults, dictGet_cons_self]
      rw [apply_defaults_skip_head (ps ++ opts) p.name v (reqBind ps vs)
        (fun q hq hh => hnotin (hh ▸ List.mem_map_of_mem Param.name hq))]
      rw [ih vs opts hlen2 hnd2]
      rfl

theorem apply_defaults_fixpoint :
    ∀ (reqs : List Param) (vals : List PyValue) (opts : List Param),
    vals.length = reqs.length →
    ((reqs ++ opts).map Param.name).Nodup →
    (∀ p ∈ opts, p.default.isSome = true) →
    apply_defaults (reqs ++ opts) (reqBind reqs vals ++ optDefaults opts) =
      reqBind reqs vals ++ optDefaults opts := by
  intro reqs
  induction reqs with
  | nil =>
    intro vals opts hlen hnd hopt
    obtain rfl : vals = [] := List.length_eq_zero.mp (by simpa using hlen)
    exact apply_defaults_optDefaults opts (by simpa using hnd) hopt
  | cons p ps ih =>
    intro vals opts hlen hnd hopt
    cases vals with
    | nil => simp at hlen
    | cons v vs =>
      have hlen2 : vs.length = ps.length := by simpa using hlen
      rw [List.cons_append, List.map_cons, List.nodup_cons] at hnd
      obtain ⟨hnotin, hnd2⟩ := hnd
      have hb : reqBind (p :: ps) (v :: vs) ++ optDefaults opts =
          (p.name, v) :: (reqBind ps vs ++ optDefaults opts) := rfl
      rw [List.cons_append, hb]
      simp only [apply_defaults, dictGet_cons_self]
      rw [apply_defaults_skip_head (ps ++ opts) p.name v (reqBind ps vs ++ optDefaults opts)
        (fun q hq hh => hnotin (hh ▸ List.mem_map_of_mem Param.name hq))]
      rw [ih vs opts hlen2 hnd2 hopt]

theorem reqBind_map_fst : ∀ (reqs : List Param) (vals : List PyValue),
    vals.length = reqs.length → (reqBind reqs vals).map Prod.fst = reqs.map Param.name := by
  intro reqs
  induction reqs with
  | nil =>
    intro vals hlen
    obtain rfl : vals = [] := List.length_eq_zero.mp (by simpa using hlen)
    rfl
  | cons p ps ih =>
    intro vals hlen
    cases vals with
    | nil => simp at hlen
    | cons v vs =>
      have hb : reqBind (p :: ps) (v :: vs) = (p.name, v) :: reqBind ps vs := rfl
      rw [hb, List.map_cons, List.map_cons, ih vs (by simpa using hlen)]

theorem optDefaults_map_fst : ∀ opts : List Param,
    (∀ p ∈ opts, p.default.isSome = true) →
    (optDefaults opts).map Prod.fst = opts.map Param.name := by
  intro opts
  induction opts with
  | nil => intro _; rfl
  | cons p ps ih =>
    intro h
    obtain ⟨d, hd⟩ := Option.isSome_iff_exists.mp (h p (by simp))
    have hopt : optDefaults (p :: ps) = (p.name, d) :: optDefaults ps := by
      simp [optDefaults, hd]
    rw [hopt, List.map_cons, List.map_cons, ih fun q hq => h q (List.mem_cons_of_mem p hq)]

/-- C5: for any method whose parameters are a required block followed by
a defaulted block (with pairwise distinct names), binding a call that
supplies exactly the required arguments positionally yields the same
`BoundArguments` as binding a call that additionally supplies every
optional parameter its own declared default value explicitly (as
keywords); the common result binds every declared parameter exactly once,
in declaration order. -/
theorem binder_defaults_agree (reqs opts : List Param) (vals : List PyValue)
    (_hreq : ∀ p ∈ reqs, p.default = Option.none)
    (hopt : ∀ p ∈ opts, p.default.isSome = true)
    (hlen : vals.length = reqs.length)
    (hnd : ((reqs ++ opts).map Param.name).Nodup) :
    bindApply (reqs ++ opts) vals [] = .ok (reqBind reqs vals ++ optDefaults opts)
    ∧ bindApply (reqs ++ opts) vals (optDefaults opts) =
        .ok (reqBind reqs vals ++ optDefaults opts)
    ∧ (reqBind reqs vals ++ optDefaults opts).map Prod.fst = (reqs ++ opts).map Param.name := by
  have hoptcase : opts = [] ∨ ∃ o rest, opts = o :: rest ∧ o.default.isSome = true := by
    cases opts with
    | nil => exact Or.inl rfl
    | cons o rest => exact Or.inr ⟨o, rest, rfl, hopt o (by simp)⟩
  refine ⟨?_, ?_, ?_⟩
  · have h1 := bindLoop1_reqs [] reqs vals opts hlen (fun p _ => rfl) hoptcase
    have h2 := bindLoop2_noKw opts hopt
    simp only [bindApply, signatureBind, h1, h2, List.append_nil]
    rw [apply_defaults_reqBind reqs vals opts hlen hnd]
  · have hdisj : ∀ p ∈ reqs, dictGet (optDefaults opts) p.name = Option.none := by
      intro p hp
      apply dictGet_optDefaults_none
      intro hmem
      have hnd2 : (List.map Param.name reqs ++ List.map Param.name opts).Nodup := by
        simpa [List.map_append] using hnd
      exact (List.disjoint_of_nodup_append hnd2) (List.mem_map_of_mem Param.name hp) hmem
    have h1 := bindLoop1_reqs (optDefaults opts) reqs vals opts hlen hdisj hoptcase
    have h2 := bindLoop2_defaults opts hopt
    simp only [bindApply, signatureBind, h1, h2]
    rw [apply_defaults_fixpoint reqs vals opts hlen hnd hopt]
  · rw [List.map_append, reqBind_map_fst reqs vals hlen, optDefaults_map_fst opts hopt,
      List.map_append]

/-- C5 witness: the theorem applied to the parameter list of `bar` minus
`self` — required `x`, optional `y=3` — showing `bar(1)` and
`bar(1, y=3)` bind identically. -/
theorem binder_defaults_agree_witness :
    bindApply [⟨"x", Option.none⟩, ⟨"y", some (.int 3)⟩] [.int 1] [] =
      .ok [("x", .int 1), ("y", .int 3)]
    ∧ bindApply [⟨"x", Option.none⟩, ⟨"y", some (.int 3)⟩] [.int 1] [("y", .int 3)] =
      .ok [("x", .int 1), ("y", .int 3)] := by
  have h := binder_defaults_agree [⟨"x", Option.none⟩] [⟨"y", some (.int 3)⟩] [.int 1]
    (by decide) (by decide) (by decide) (by decide)
  exact ⟨h.1, h.2.1⟩

end Sauerkraut
